/-
Verification development for the MDSuite Green-Kubo distinct diffusion
coefficient pipeline.

Shallow embedding of:
  * `mdsuite/calculators/green_kubo_distinct_diffusion_coefficients.py`
    (`ensemble_operation`, `run_calculator`, `_calculate_prefactor`,
     `_post_operation_processes`), and
  * `mdsuite/analysis/flux_analyses.py`
    (`_compute_thermal_conductivity` window generation and statistics).

Numeric values are modelled over `ℚ` (Python floats are treated as exact
reals; no claim under study depends on rounding).  The NaN results of NumPy
(mean/std of an empty array, division by zero) are modelled with `Option ℚ`,
where `none` stands for NaN.  The emitted `uncertainty` involves a square
root, so the embedding carries its square (`uncertaintySq`); since
`Real.sqrt` is injective on nonnegative reals, two uncertainty values are
equal iff their squares are.
-/
import Mathlib

namespace MDSuite

/-- A 3-dimensional Cartesian sample (one timestep of one particle),
matching the trailing dimension 3 of the loaded velocity arrays. -/
structure Vec3 where
  x : ℚ
  y : ℚ
  z : ℚ
deriving DecidableEq, Repr

/-- Component selection, mirroring NumPy indexing `arr[:, idx]`. -/
def Vec3.comp (v : Vec3) : Fin 3 → ℚ
  | 0 => v.x
  | 1 => v.y
  | 2 => v.z

/-- The per-dimension signal `data[dict_ref[k]][i][:, idx]` of one particle
series: the list of component `d` over the timesteps. -/
def dimSlice (s : List Vec3) (d : Fin 3) : List ℚ :=
  s.map (fun v => v.comp d)

/-- Out-of-range-safe indexing by an integer, used to express the
correlation sum (indices outside the signal contribute 0, exactly the
zero-padding semantics of `scipy.signal.correlate(..., mode="full")`). -/
def getZ (v : List ℚ) (i : ℤ) : ℚ :=
  if 0 ≤ i ∧ i < (v.length : ℤ) then v.getD i.toNat 0 else 0

/-- `scipy.signal.correlate(x, y, mode="full")` for real 1-d signals:
output index `k` (for `k < x.length + y.length - 1`) holds
`Σ_l x[l] · y[l - k + (y.length - 1)]`. -/
def correlateFull (x y : List ℚ) : List ℚ :=
  (List.range (x.length + y.length - 1)).map (fun (k : ℕ) =>
    ∑ l ∈ Finset.range x.length,
      x.getD l 0 * getZ y ((l : ℤ) - (k : ℤ) + ((y.length : ℤ) - 1)))

/-- Elementwise array addition (`numpy` `+` on equal-length arrays). -/
def addL (a b : List ℚ) : List ℚ :=
  List.zipWith (· + ·) a b

/-- An all-zero array, `np.zeros(n)`. -/
def zerosL (n : ℕ) : List ℚ :=
  List.replicate n 0

/-- The summand of the inner loop of `ensemble_operation`:
`sum([signal.correlate(data[dict_ref[0]][i][:, idx],
                       data[dict_ref[1]][j][:, idx], mode="full", ...)
      for idx in range(3)])`
— the three per-dimension full cross-correlations of two particle series,
summed elementwise. -/
def pairCorrelate (a b : List Vec3) : List ℚ :=
  addL (addL (correlateFull (dimSlice a 0) (dimSlice b 0))
             (correlateFull (dimSlice a 1) (dimSlice b 1)))
       (correlateFull (dimSlice a 2) (dimSlice b 2))

/-- The index pairs visited by
`for i in range(len(data[dict_ref[0]])): for j in range(i + 1, len(data[dict_ref[1]])):`
(Python `range(a, b)` is `List.range' a (b - a)`, empty when `b ≤ a`). -/
def loopPairs (na nb : ℕ) : List (ℕ × ℕ) :=
  (List.range na).flatMap (fun i =>
    (List.range' (i + 1) (nb - (i + 1))).map (fun j => (i, j)))

/-- `np.trapz(y, x=t)`: the trapezoidal rule
`Σ_k (t[k+1] - t[k]) · (y[k+1] + y[k]) / 2`. -/
def trapz (y t : List ℚ) : ℚ :=
  ∑ k ∈ Finset.range (y.length - 1),
    (t.getD (k + 1) 0 - t.getD k 0) * (y.getD (k + 1) 0 + y.getD k 0) / 2

/-- The full (two-sided) correlation accumulated by the double particle
loop of `ensemble_operation` (lines 191–207): starts from
`np.zeros(2 * data_range - 1)` and adds `pairCorrelate` for every visited
pair, skipping `i = j` when `same_species`. -/
def innerVacf (A B : List (List Vec3)) (same : Bool) (dr : ℕ) : List ℚ :=
  (loopPairs A.length B.length).foldl
    (fun acc p =>
      if same && decide (p.1 = p.2) then acc
      else addL acc (pairCorrelate (A.getD p.1 []) (B.getD p.2 [])))
    (zerosL (2 * dr - 1))

/-- The mutable calculator state touched by `ensemble_operation`:
`self.vacf` (reassigned at line 190, incremented at line 208) and
`self.sigma` (appended to at line 209). -/
structure CalcState where
  vacf : List ℚ
  sigma : List ℚ
deriving DecidableEq, Repr

/-- `ensemble_operation(self, data, dict_ref, same_species)`:
`A`/`B` are `data[dict_ref[0]]` and `data[dict_ref[1]]` (lists of particle
series).  Mirrors the source line by line:
line 190 `self.vacf = np.zeros(data_range)`;
lines 191–207 accumulate the full correlation over the particle pairs;
line 208 `self.vacf += vacf[data_range - 1:]`;
line 209 `self.sigma.append(np.trapz(vacf[data_range - 1:], x=self.time))`. -/
def ensemble_operation (dr : ℕ) (time : List ℚ) (A B : List (List Vec3))
    (same : Bool) (st : CalcState) : CalcState :=
  let st1 : CalcState := { st with vacf := zerosL dr }
  let vacfFull := innerVacf A B same dr
  let oneSided := vacfFull.drop (dr - 1)
  { vacf := addL st1.vacf oneSided
    sigma := st1.sigma ++ [trapz oneSided time] }

/-- `np.mean(xs)`; `none` is NaN (the mean of an empty array). -/
def npMean (xs : List ℚ) : Option ℚ :=
  if xs.length = 0 then none else some (xs.sum / xs.length)

/-- `np.std(xs) ** 2`, i.e. the population (ddof = 0) variance; `none` is
NaN (the std of an empty array). -/
def npVarSq (xs : List ℚ) : Option ℚ :=
  if xs.length = 0 then none
  else some ((xs.map (fun v => (v - xs.sum / xs.length) ^ 2)).sum / xs.length)

/-- `(np.std(xs) / np.sqrt(len(xs))) ** 2`.  For the empty list NumPy gives
NaN / 0 = NaN, modelled by `none`. -/
def uncertaintySqOf (xs : List ℚ) : Option ℚ :=
  (npVarSq xs).map (fun v => v / (xs.length : ℚ))

/-- The dictionary queued by `_post_operation_processes` (keys
`diffusion_coefficient`, `uncertainty`, `time`, `vacf`).  `uncertaintySq`
carries the square of the emitted `uncertainty` (see file header). -/
structure ResultRecord where
  diffusion_coefficient : Option ℚ
  uncertaintySq : Option ℚ
  time : List ℚ
  vacf : List ℚ
deriving DecidableEq, Repr

/-- `_post_operation_processes`: `result = self.prefactor * np.array(self.sigma)`,
then mean, std-error, time axis and the current `self.vacf` are queued. -/
def post_operation_processes (prefactor : ℚ) (time : List ℚ)
    (st : CalcState) : ResultRecord :=
  let result := st.sigma.map (fun s => prefactor * s)
  { diffusion_coefficient := npMean result
    uncertaintySq := uncertaintySqOf result
    time := time
    vacf := st.vacf }

/-- The experiment-level constants consumed by `_calculate_prefactor`:
per-species particle counts and length/time factors of the unit system. -/
structure Experiment where
  npart : String → ℤ
  ulength : ℚ
  utime : ℚ

/-- `_calculate_prefactor(combination)`: `n * (n - 1)` for self pairs,
`n_a * n_b` for cross pairs, then
`units["length"]**2 / (3 * units["time"] * (data_range - 1) * atom_scale)`. -/
def calculate_prefactor (ex : Experiment) (dr : ℕ) (s1 s2 : String) : ℚ :=
  let atom_scale : ℤ :=
    if s1 = s2 then ex.npart s1 * (ex.npart s2 - 1)
    else ex.npart s1 * ex.npart s2
  (ex.ulength ^ 2) / (3 * ex.utime * ((dr : ℚ) - 1) * (atom_scale : ℚ))

/-- One ensemble as handed to `ensemble_operation`: the data of the two species
under `dict_ref[0]` and `dict_ref[1]` (the same list twice for a
same-species combination). -/
structure EnsembleData where
  dataA : List (List Vec3)
  dataB : List (List Vec3)
deriving DecidableEq, Repr

/-- One `SpeciesCombination` of the outer loop of `run_calculator`,
together with the stream of ensembles its batch/ensemble datasets yield. -/
structure CombInput where
  species1 : String
  species2 : String
  ensembles : List EnsembleData
deriving Repr

/-- The body of the outer loop of `run_calculator` for one combination:
every ensemble is fed to `ensemble_operation` (with the default
`same_species=False`, as in the call at line 233), then the prefactor is
computed, `_post_operation_processes` queues one record and
`self.sigma = []` resets the scalar accumulator (line 237). -/
def processCombination (ex : Experiment) (dr : ℕ) (time : List ℚ)
    (c : CombInput) (st : CalcState) : CalcState × ResultRecord :=
  let st1 := c.ensembles.foldl
    (fun s e => ensemble_operation dr time e.dataA e.dataB false s) st
  let pf := calculate_prefactor ex dr c.species1 c.species2
  let r := post_operation_processes pf time st1
  ({ st1 with sigma := [] }, r)

/-- `run_calculator` over a list of species combinations, starting from the
state established by `__init__` (`self.sigma = []`, line 107) and
`__call__` (`self.vacf = np.zeros(data_range)`, line 166); returns the
queued records in order. -/
def run_calculator (ex : Experiment) (dr : ℕ) (time : List ℚ)
    (combs : List CombInput) : List ResultRecord :=
  (combs.foldl
    (fun (acc : CalcState × List ResultRecord) c =>
      let out := processCombination ex dr time c acc.1
      (out.1, acc.2 ++ [out.2]))
    ({ vacf := zerosL dr, sigma := [] }, [])).2

/-- The configuration of one `tqdm` progress bar as constructed in
`run_calculator` (lines 224–230): description `"A-B"` and
`disable=self.memory_manager.minibatch`. -/
structure TqdmConfig where
  desc : String
  disable : Bool
deriving DecidableEq, Repr

/-- The progress bar built for the batch loop of one combination. -/
def combinationProgressBar (minibatch : Bool) (c : CombInput) : TqdmConfig :=
  { desc := c.species1 ++ "-" ++ c.species2, disable := minibatch }

/-- All progress bars constructed during one run (one per combination). -/
def runProgressBars (minibatch : Bool) (combs : List CombInput) : List TqdmConfig :=
  combs.map (combinationProgressBar minibatch)

/-- `loop_range = len(flux) - self.data_range - 1` from
`_compute_thermal_conductivity` (flux_analyses.py line 68).  The Python
`range` of a negative number is empty, which ℕ-subtraction clamping
reproduces exactly. -/
def fluxLoopRange (fluxLen dr : ℕ) : ℕ :=
  fluxLen - dr - 1

/-- The window start offsets iterated by the flux correlation loop
(`for i in range(loop_range)`, windows `flux[i:i + data_range]`). -/
def fluxOffsets (fluxLen dr : ℕ) : List ℕ :=
  List.range (fluxLoopRange fluxLen dr)

/-! ### Helper lemmas about the correlation primitives -/

lemma dimSlice_length (s : List Vec3) (d : Fin 3) :
    (dimSlice s d).length = s.length := by
  simp [dimSlice]

lemma addL_length (a b : List ℚ) :
    (addL a b).length = min a.length b.length := by
  simp [addL]

lemma addL_getD (a : List ℚ) : ∀ (b : List ℚ) (k : ℕ), k < a.length →
    k < b.length → (addL a b).getD k 0 = a.getD k 0 + b.getD k 0 := by
  induction a with
  | nil => intro b k hk; simp at hk
  | cons x xs ih =>
    intro b k hka hkb
    cases b with
    | nil => simp at hkb
    | cons y ys =>
      cases k with
      | zero => simp [addL]
      | succ n =>
        have := ih ys n (by simpa using hka) (by simpa using hkb)
        simpa [addL] using this

lemma correlateFull_length (x y : List ℚ) :
    (correlateFull x y).length = x.length + y.length - 1 := by
  simp [correlateFull]

lemma correlateFull_getD (x y : List ℚ) (k : ℕ)
    (hk : k < x.length + y.length - 1) :
    (correlateFull x y).getD k 0
      = ∑ l ∈ Finset.range x.length,
          x.getD l 0 * getZ y ((l : ℤ) - (k : ℤ) + ((y.length : ℤ) - 1)) := by
  rw [List.getD_eq_getElem?_getD, correlateFull, List.getElem?_map,
    List.getElem?_range hk]
  rfl

lemma getZ_coe (v : List ℚ) (l : ℕ) (hl : l < v.length) :
    getZ v (l : ℤ) = v.getD l 0 := by
  simp [getZ, hl]

lemma drop_getD (l : List ℚ) (m k : ℕ) :
    (l.drop m).getD k 0 = l.getD (m + k) 0 := by
  rw [List.getD_eq_getElem?_getD, List.getD_eq_getElem?_getD,
    List.getElem?_drop]

lemma pairCorrelate_length (a b : List Vec3) (dr : ℕ)
    (ha : a.length = dr) (hb : b.length = dr) :
    (pairCorrelate a b).length = 2 * dr - 1 := by
  simp only [pairCorrelate, addL_length, correlateFull_length,
    dimSlice_length, ha, hb]
  omega

lemma pairCorrelate_getD (a b : List Vec3) (dr k : ℕ)
    (ha : a.length = dr) (hb : b.length = dr) (hk : k < 2 * dr - 1) :
    (pairCorrelate a b).getD k 0
      = ∑ d : Fin 3, (correlateFull (dimSlice a d) (dimSlice b d)).getD k 0 := by
  have hl : ∀ d : Fin 3,
      (correlateFull (dimSlice a d) (dimSlice b d)).length = 2 * dr - 1 := by
    intro d
    simp only [correlateFull_length, dimSlice_length, ha, hb]
    omega
  rw [Fin.sum_univ_three, pairCorrelate,
    addL_getD _ _ _ (by simp only [addL_length, hl]; omega) (by simp only [hl]; omega),
    addL_getD _ _ _ (by simp only [hl]; omega) (by simp only [hl]; omega)]

lemma correlateFull_lag0 (x y : List ℚ) (dr : ℕ)
    (hx : x.length = dr) (hy : y.length = dr) (hdr : 1 ≤ dr) :
    (correlateFull x y).getD (dr - 1) 0
      = ∑ t ∈ Finset.range dr, x.getD t 0 * y.getD t 0 := by
  rw [correlateFull_getD _ _ _ (by omega), hx]
  refine Finset.sum_congr rfl (fun l hl => ?_)
  have hlt : l < y.length := by rw [hy]; exact Finset.mem_range.mp hl
  have harg : (l : ℤ) - ((dr - 1 : ℕ) : ℤ) + ((y.length : ℤ) - 1) = (l : ℤ) := by
    rw [hy]; omega
  rw [harg, getZ_coe _ _ hlt]

/-! ### Helper lemmas about the particle-pair loop -/

lemma loopPairs_mem (na nb : ℕ) (p : ℕ × ℕ) :
    p ∈ loopPairs na nb ↔ p.1 < na ∧ p.1 < p.2 ∧ p.2 < nb := by
  obtain ⟨i, j⟩ := p
  simp only [loopPairs, List.mem_flatMap, List.mem_map, List.mem_range,
    List.mem_range'_1]
  constructor
  · rintro ⟨i', hi', j', hj', heq⟩
    cases heq
    exact ⟨hi', by omega, by omega⟩
  · rintro ⟨h1, h2, h3⟩
    exact ⟨i, h1, j, ⟨by omega, by omega⟩, rfl⟩

lemma loopPairs_nodup (na nb : ℕ) : (loopPairs na nb).Nodup := by
  rw [loopPairs, List.nodup_flatMap]
  refine ⟨fun i _ => ?_, ?_⟩
  · exact (List.nodup_range' _ _).map
      (fun j j' h => by simpa using congrArg Prod.snd h)
  · refine (List.pairwise_lt_range na).imp ?_
    intro i i' hlt x hx hx'
    simp only [List.mem_map] at hx hx'
    obtain ⟨j, _, rfl⟩ := hx
    obtain ⟨j', _, h⟩ := hx'
    have : i' = i := by simpa using congrArg Prod.fst h
    omega

lemma innerVacf_same_irrelevant (A B : List (List Vec3)) (same : Bool)
    (dr : ℕ) : innerVacf A B same dr = innerVacf A B false dr := by
  unfold innerVacf
  apply List.foldl_ext
  intro acc p hp
  have hm := (loopPairs_mem _ _ p).mp hp
  have hne : ¬ p.1 = p.2 := by omega
  simp [hne]

/-! ### Claim theorems: correlation engine -/

/-- C2: for a pair of equal-length (`data_range`) ensembles, each of the 3
per-dimension full cross-correlations has length `2*data_range - 1`, the
pair correlation is their elementwise sum, and the one-sided result obtained
by discarding exactly the first `data_range - 1` entries has length
`data_range` and reads the full array from index `data_range - 1` on. -/
theorem pairCorrelate_shape_and_onesided (a b : List Vec3) (dr : ℕ)
    (ha : a.length = dr) (hb : b.length = dr) (hdr : 1 ≤ dr) :
    (∀ d : Fin 3,
      (correlateFull (dimSlice a d) (dimSlice b d)).length = 2 * dr - 1)
    ∧ (pairCorrelate a b).length = 2 * dr - 1
    ∧ (∀ k, k < 2 * dr - 1 → (pairCorrelate a b).getD k 0
        = ∑ d : Fin 3, (correlateFull (dimSlice a d) (dimSlice b d)).getD k 0)
    ∧ ((pairCorrelate a b).drop (dr - 1)).length = dr
    ∧ (∀ k, ((pairCorrelate a b).drop (dr - 1)).getD k 0
        = (pairCorrelate a b).getD (dr - 1 + k) 0) := by
  refine ⟨fun d => ?_, pairCorrelate_length a b dr ha hb,
    fun k hk => pairCorrelate_getD a b dr k ha hb hk, ?_, fun k => ?_⟩
  · simp only [correlateFull_length, dimSlice_length, ha, hb]; omega
  · rw [List.length_drop, pairCorrelate_length a b dr ha hb]; omega
  · exact drop_getD _ _ _

/-- C2 witness: a concrete instance with `data_range = 2`. -/
theorem pairCorrelate_shape_and_onesided_witness :
    (MDSuite.pairCorrelate [⟨1, 2, 3⟩, ⟨4, 5, 6⟩] [⟨7, 8, 9⟩, ⟨1, 0, 2⟩]).length = 3
    ∧ ((MDSuite.pairCorrelate [⟨1, 2, 3⟩, ⟨4, 5, 6⟩] [⟨7, 8, 9⟩, ⟨1, 0, 2⟩]).drop 1).length = 2 :=
  ⟨(pairCorrelate_shape_and_onesided [⟨1, 2, 3⟩, ⟨4, 5, 6⟩]
      [⟨7, 8, 9⟩, ⟨1, 0, 2⟩] 2 rfl rfl (by norm_num)).2.1,
   (pairCorrelate_shape_and_onesided [⟨1, 2, 3⟩, ⟨4, 5, 6⟩]
      [⟨7, 8, 9⟩, ⟨1, 0, 2⟩] 2 rfl rfl (by norm_num)).2.2.2.1⟩

/-- C3: the one-sided pair correlation (cross-species case, no skipping) at
lag 0 equals the sum over the 3 dimensions and all timesteps of
`a[t]·b[t]`, the standard cross-correlation `Σ_t a[t]·b[t+τ]` at `τ = 0`. -/
theorem pairCorrelate_lag_zero (a b : List Vec3) (dr : ℕ)
    (ha : a.length = dr) (hb : b.length = dr) (hdr : 1 ≤ dr) :
    ((pairCorrelate a b).drop (dr - 1)).getD 0 0
      = ∑ d : Fin 3, ∑ t ∈ Finset.range dr,
          (dimSlice a d).getD t 0 * (dimSlice b d).getD t 0 := by
  rw [drop_getD, Nat.add_zero,
    pairCorrelate_getD a b dr (dr - 1) ha hb (by omega)]
  refine Finset.sum_congr rfl (fun d _ => ?_)
  exact correlateFull_lag0 _ _ dr (by simp [dimSlice_length, ha])
    (by simp [dimSlice_length, hb]) hdr

/-- C3 witness: lag-0 value on a concrete pair of length-2 ensembles. -/
theorem pairCorrelate_lag_zero_witness :
    ((MDSuite.pairCorrelate [⟨1, 2, 3⟩, ⟨4, 5, 6⟩] [⟨7, 8, 9⟩, ⟨1, 0, 2⟩]).drop 1).getD 0 0
      = ∑ d : Fin 3, ∑ t ∈ Finset.range 2,
          (dimSlice [⟨1, 2, 3⟩, ⟨4, 5, 6⟩] d).getD t 0
            * (dimSlice [⟨7, 8, 9⟩, ⟨1, 0, 2⟩] d).getD t 0 :=
  pairCorrelate_lag_zero [⟨1, 2, 3⟩, ⟨4, 5, 6⟩] [⟨7, 8, 9⟩, ⟨1, 0, 2⟩] 2
    rfl rfl (by norm_num)

/-- C10: the particle loop of `ensemble_operation` visits exactly the index
pairs `(i, j)` with `i < j` (and `i < len(A)`, `j < len(B)`), each at most
once, and the `same_species` skip of `i = j` can never change the result. -/
theorem loop_visits_only_upper_pairs (na nb : ℕ) (p : ℕ × ℕ) :
    (p ∈ loopPairs na nb ↔ p.1 < na ∧ p.1 < p.2 ∧ p.2 < nb)
    ∧ (loopPairs na nb).Nodup
    ∧ ∀ (A B : List (List Vec3)) (same : Bool) (dr : ℕ),
        innerVacf A B same dr = innerVacf A B false dr :=
  ⟨loopPairs_mem na nb p, loopPairs_nodup na nb,
    fun A B same dr => innerVacf_same_irrelevant A B same dr⟩

/-- C10 witness: the diagonal pair `(1, 1)` and the reversed pair `(2, 1)`
are never visited when both species lists have 3 particles. -/
theorem loop_visits_only_upper_pairs_witness :
    (1, 1) ∉ MDSuite.loopPairs 3 3 ∧ (2, 1) ∉ MDSuite.loopPairs 3 3 :=
  ⟨fun h => by simpa using ((loop_visits_only_upper_pairs 3 3 (1, 1)).1.mp h),
   fun h => by simpa using ((loop_visits_only_upper_pairs 3 3 (2, 1)).1.mp h)⟩

/-! ### Claim theorems: progress reporting and prefactor -/

/-- C9: every per-combination progress bar built by `run_calculator` has
`disable = minibatch`: minibatching suppresses the indicator for the whole
run, and without minibatching every indicator is shown. -/
theorem progress_disabled_iff_minibatch (minibatch : Bool)
    (combs : List CombInput) :
    (runProgressBars minibatch combs).map TqdmConfig.disable
      = List.replicate combs.length minibatch := by
  induction combs with
  | nil => rfl
  | cons c cs ih =>
    simpa [runProgressBars, combinationProgressBar, List.replicate_succ]
      using ih

/-- A concrete experiment used by witnesses: 2 "Na" particles, 3 of any
other species, length unit 5, time unit 7. -/
def exW : Experiment :=
  ⟨fun s => if s = "Na" then 2 else 3, 5, 7⟩

/-- C4: the prefactor of a combination uses the particle-count factor
`n·(n-1)` for a same-species pair and `n_a·n_b` for a cross pair, inside
`length² / (3 · time · (data_range - 1) · atom_scale)` — spatial factor 3
and the length/time conversion factors of the unit system. -/
theorem prefactor_particle_count_cases (ex : Experiment) (dr : ℕ)
    (s1 s2 : String) :
    (s1 = s2 → calculate_prefactor ex dr s1 s2
      = ex.ulength ^ 2 / (3 * ex.utime * ((dr : ℚ) - 1)
          * ((ex.npart s1 * (ex.npart s1 - 1) : ℤ) : ℚ)))
    ∧ (s1 ≠ s2 → calculate_prefactor ex dr s1 s2
      = ex.ulength ^ 2 / (3 * ex.utime * ((dr : ℚ) - 1)
          * ((ex.npart s1 * ex.npart s2 : ℤ) : ℚ))) := by
  constructor
  · intro h; subst h; simp [calculate_prefactor]
  · intro h; simp [calculate_prefactor, h]

/-- C4 witness: concrete values for a self pair and a cross pair. -/
theorem prefactor_particle_count_cases_witness :
    calculate_prefactor exW 11 "Na" "Na" = 5 / 84
    ∧ calculate_prefactor exW 11 "Na" "Cl" = 5 / 252 := by
  constructor
  · rw [(prefactor_particle_count_cases exW 11 "Na" "Na").1 rfl]
    with_unfolding_all rfl
  · rw [(prefactor_particle_count_cases exW 11 "Na" "Cl").2 (by decide)]
    with_unfolding_all rfl

/-! ### Claim theorems: result statistics -/

/-- Modelled from the spec: the sample (Bessel-corrected, `ddof = 1`)
variance `Σ (x - mean)² / (n - 1)` the phrase "sample standard deviation" of the spec
refers to. -/
def sampleVarSpec (xs : List ℚ) : ℚ :=
  (xs.map (fun v => (v - xs.sum / xs.length) ^ 2)).sum / ((xs.length : ℚ) - 1)

/-- Modelled from the spec: the square of
"sample standard deviation / sqrt(sample_count)". -/
def sampleStdErrSqSpec (xs : List ℚ) : ℚ :=
  sampleVarSpec xs / (xs.length : ℚ)

/-- C5 counterexample: for the samples `[0, 2]` (prefactor 1) the emitted
standard error squared is `1/2` (population std), while the value from the spec, namely
`sample standard deviation / sqrt(n)` squared is `1`; as both are
nonnegative and squaring is injective on nonnegatives, the emitted value
differs from the claimed one. -/
theorem std_error_uses_population_std_counterexample :
    (post_operation_processes 1 [0, 1] ⟨[0, 0], [0, 2]⟩).uncertaintySq
      = some (1 / 2)
    ∧ sampleStdErrSqSpec [(0 : ℚ), 2] = 1
    ∧ some ((1 : ℚ) / 2) ≠ some (1 : ℚ) := by
  refine ⟨by with_unfolding_all decide, by with_unfolding_all decide,
    by with_unfolding_all decide⟩

/-- C5 (amended): the emitted mean is the arithmetic mean of the scaled
samples, and the emitted standard error is the population (`ddof = 0`)
standard deviation divided by `sqrt(sample_count)` (stated on squares). -/
theorem mean_and_population_std_error (pf : ℚ) (t : List ℚ) (st : CalcState)
    (h : st.sigma ≠ []) :
    (post_operation_processes pf t st).diffusion_coefficient
      = some ((st.sigma.map (fun s => pf * s)).sum / (st.sigma.length : ℚ))
    ∧ (post_operation_processes pf t st).uncertaintySq
      = some ((((st.sigma.map (fun s => pf * s)).map
          (fun v => (v - (st.sigma.map (fun s => pf * s)).sum
            / (st.sigma.length : ℚ)) ^ 2)).sum
          / (st.sigma.length : ℚ)) / (st.sigma.length : ℚ)) := by
  constructor
  · simp [post_operation_processes, npMean, h]
  · simp [post_operation_processes, uncertaintySqOf, npVarSq, h]

/-- C5 witness: samples `[1, 3]` with prefactor 2 give mean 4 and squared
standard error 2. -/
theorem mean_and_population_std_error_witness :
    (post_operation_processes 2 [0, 1] ⟨[1, 2], [1, 3]⟩).diffusion_coefficient
      = some 4
    ∧ (post_operation_processes 2 [0, 1] ⟨[1, 2], [1, 3]⟩).uncertaintySq
      = some 2 := by
  have h := mean_and_population_std_error 2 [0, 1] ⟨[1, 2], [1, 3]⟩ (by decide)
  exact ⟨by rw [h.1]; with_unfolding_all rfl,
    by rw [h.2]; with_unfolding_all rfl⟩

/-! ### Claim theorems: flux-analysis windowing -/

/-- C8 counterexample: with `data_range = 4` and a series of length exactly
4, the offset 0 satisfies the claimed admission condition
`offset + data_range ≤ length`, yet the loop of the code
(`loop_range = len - data_range - 1`) produces no window at all. -/
theorem flux_window_boundary_counterexample :
    (0 + 4 ≤ 4) ∧ (0 ∉ fluxOffsets 4 4) ∧ fluxOffsets 4 4 = [] := by
  refine ⟨by norm_num, by decide, rfl⟩

/-- C8 (amended): the flux loop produces window offsets `0, 1, 2, …`
exactly while `offset + data_range + 2 ≤ length` (the code with
`loop_range = len - data_range - 1` stops two windows short of the claimed
bound), so series of length `data_range` and `data_range - 1` both yield
zero windows. -/
theorem flux_window_offsets (fluxLen dr offset : ℕ) :
    (offset ∈ fluxOffsets fluxLen dr ↔ offset + dr + 2 ≤ fluxLen)
    ∧ fluxOffsets dr dr = []
    ∧ fluxOffsets (dr - 1) dr = [] := by
  refine ⟨?_, ?_, ?_⟩
  · simp only [fluxOffsets, fluxLoopRange, List.mem_range]
    omega
  · simp only [fluxOffsets, fluxLoopRange, List.range_eq_nil]
    omega
  · simp only [fluxOffsets, fluxLoopRange, List.range_eq_nil]
    omega

/-- C8 witness: with length 8 and `data_range = 4` the offset 2 is
produced (`2 + 4 + 2 ≤ 8`). -/
theorem flux_window_offsets_witness : 2 ∈ MDSuite.fluxOffsets 8 4 :=
  (flux_window_offsets 8 4 2).1.mpr (by norm_num)

/-! ### Claim theorems: accumulator isolation across combinations -/

/-- The integral samples the ensembles of a combination generate
(`self.sigma.append(np.trapz(...))` once per ensemble). -/
def combSamples (dr : ℕ) (time : List ℚ) (c : CombInput) : List ℚ :=
  c.ensembles.map (fun e =>
    trapz ((innerVacf e.dataA e.dataB false dr).drop (dr - 1)) time)

/-- The scalar part (mean, squared standard error) of the record of one
combination computed from the input of that combination alone. -/
def comboScalars (ex : Experiment) (dr : ℕ) (time : List ℚ)
    (c : CombInput) : Option ℚ × Option ℚ :=
  let result := (combSamples dr time c).map
    (fun s => calculate_prefactor ex dr c.species1 c.species2 * s)
  (npMean result, uncertaintySqOf result)

lemma foldl_ensemble_sigma (dr : ℕ) (time : List ℚ) (es : List EnsembleData) :
    ∀ st : CalcState,
      (es.foldl (fun s e =>
        ensemble_operation dr time e.dataA e.dataB false s) st).sigma
      = st.sigma ++ es.map (fun e =>
          trapz ((innerVacf e.dataA e.dataB false dr).drop (dr - 1)) time) := by
  induction es with
  | nil => intro st; simp
  | cons e es ih =>
    intro st
    rw [List.foldl_cons, ih]
    simp [ensemble_operation]

lemma processCombination_scalars (ex : Experiment) (dr : ℕ) (time : List ℚ)
    (c : CombInput) (st : CalcState) (h : st.sigma = []) :
    ((processCombination ex dr time c st).2.diffusion_coefficient,
      (processCombination ex dr time c st).2.uncertaintySq)
      = comboScalars ex dr time c := by
  simp [processCombination, post_operation_processes, comboScalars,
    combSamples, foldl_ensemble_sigma, h]

lemma processCombination_resets_sigma (ex : Experiment) (dr : ℕ)
    (time : List ℚ) (c : CombInput) (st : CalcState) :
    (processCombination ex dr time c st).1.sigma = [] := by
  simp [processCombination]

lemma run_calculator_aux (ex : Experiment) (dr : ℕ) (time : List ℚ) :
    ∀ (combs : List CombInput) (st : CalcState) (recs : List ResultRecord),
      st.sigma = [] →
      ((combs.foldl (fun (acc : CalcState × List ResultRecord) c =>
          let out := processCombination ex dr time c acc.1
          (out.1, acc.2 ++ [out.2])) (st, recs)).2).map
        (fun r => (r.diffusion_coefficient, r.uncertaintySq))
      = recs.map (fun r => (r.diffusion_coefficient, r.uncertaintySq))
        ++ combs.map (comboScalars ex dr time) := by
  intro combs
  induction combs with
  | nil => intro st recs _; simp
  | cons c cs ih =>
    intro st recs h
    rw [List.foldl_cons, ih _ _ (processCombination_resets_sigma ex dr time c st)]
    simp [processCombination_scalars ex dr time c st h]

/-- C6: the scalar part of the emitted record of every combination is a function
of the ensembles of that combination alone — the `sigma` accumulator starts
empty (from `__init__`) and is re-emptied after each combination
(`self.sigma = []`), so a combination processed after another never
reflects any sample accumulated earlier. -/
theorem scalar_accumulator_isolated (ex : Experiment) (dr : ℕ)
    (time : List ℚ) (combs : List CombInput) :
    (run_calculator ex dr time combs).map
        (fun r => (r.diffusion_coefficient, r.uncertaintySq))
      = combs.map (comboScalars ex dr time) := by
  have h := run_calculator_aux ex dr time combs
    { vacf := zerosL dr, sigma := [] } [] rfl
  simpa [run_calculator] using h

/-! ### Claim theorems: empty sample sets and vacf accumulation -/

/-- A concrete experiment with 2 particles of every species and trivial
units. -/
def expTwoOfEach : Experiment := ⟨fun _ => 2, 1, 1⟩

/-- C7 counterexample: a combination that yields zero ensembles still
completes normally and queues an ordinary result record whose mean and
standard error are NaN (`none`) — no distinguishable error or result-state
is produced (the code has no raise/check on this path; `np.mean([])` and
`np.std([]) / sqrt(0)` are NaN). -/
theorem empty_sample_set_silent_nan_counterexample :
    run_calculator expTwoOfEach 2 [0, 1] [⟨"Na", "Cl", []⟩]
      = [{ diffusion_coefficient := none, uncertaintySq := none,
           time := [0, 1], vacf := [0, 0] }] := by
  with_unfolding_all decide

/-- C7 (amended): with zero ensembles the mean of the queued record and standard
error are NaN (`none`); the pipeline does not surface any distinguishable
error or result-state. -/
theorem empty_sample_set_emits_nan (ex : Experiment) (dr : ℕ) (t : List ℚ)
    (s1 s2 : String) (st : CalcState) (h : st.sigma = []) :
    (processCombination ex dr t ⟨s1, s2, []⟩ st).2.diffusion_coefficient = none
    ∧ (processCombination ex dr t ⟨s1, s2, []⟩ st).2.uncertaintySq = none := by
  constructor
  · simp [processCombination, post_operation_processes, npMean, h]
  · simp [processCombination, post_operation_processes, uncertaintySqOf,
      npVarSq, h]

/-- C7 witness: the amended statement at a concrete empty combination. -/
theorem empty_sample_set_emits_nan_witness :
    (processCombination expTwoOfEach 2 [0, 1] ⟨"Na", "Cl", []⟩
        ⟨[5, 6], []⟩).2.diffusion_coefficient = none
    ∧ (processCombination expTwoOfEach 2 [0, 1] ⟨"Na", "Cl", []⟩
        ⟨[5, 6], []⟩).2.uncertaintySq = none :=
  empty_sample_set_emits_nan expTwoOfEach 2 [0, 1] "Na" "Cl" ⟨[5, 6], []⟩ rfl

/-- A constant-velocity particle series of length 2 with x-component `c`. -/
def constSeries (c : ℚ) : List Vec3 := [⟨c, 0, 0⟩, ⟨c, 0, 0⟩]

/-- An ensemble whose two particles both move with x-velocity 1. -/
def ensembleOnes : EnsembleData :=
  ⟨[constSeries 1, constSeries 1], [constSeries 1, constSeries 1]⟩

/-- An ensemble whose two particles both move with x-velocity 2. -/
def ensembleTwos : EnsembleData :=
  ⟨[constSeries 2, constSeries 2], [constSeries 2, constSeries 2]⟩

/-- Modelled from the spec: the correlation series the spec prescribes for
a combination — the running sum, over ALL its ensembles, of the one-sided
correlation results (left un-normalized). -/
def summedVacfSpec (dr : ℕ) (es : List EnsembleData) : List ℚ :=
  es.foldl (fun acc e =>
    addL acc ((innerVacf e.dataA e.dataB false dr).drop (dr - 1))) (zerosL dr)

/-- C1: `ensemble_operation` re-zeroes `self.vacf` on every call (line 190),
so the reported series is the one-sided correlation of the LAST ensemble, not
the running sum over all ensembles: with two two-particle ensembles of
constant x-velocities 1 and 2 (`data_range = 2`), the reported `vacf` is
`[8, 4]` (the second ensemble alone) while the sum over both ensembles is
`[10, 5]`.  The dead `+=` at line 208 and the dead initialization of
`self.vacf` in `__call__` (line 166) show the accumulation the spec
describes was intended. -/
theorem vacf_not_accumulated_across_ensembles :
    (run_calculator expTwoOfEach 2 [0, 1]
        [⟨"Na", "Na", [ensembleOnes, ensembleTwos]⟩]).map ResultRecord.vacf
      = [[8, 4]]
    ∧ summedVacfSpec 2 [ensembleOnes, ensembleTwos] = [10, 5]
    ∧ ([8, 4] : List ℚ) ≠ [10, 5] := by
  refine ⟨by with_unfolding_all decide, by with_unfolding_all decide,
    by with_unfolding_all decide⟩

end MDSuite
